import Mathlib

/-!
Verification of the `cloudwatch_alerts_to_teams` Lambda
(`src/lambdas/cloudwatch_alerts_to_teams/app/main.py`) against its
natural-language specification.

The Python source is shallowly embedded: pure helpers become Lean
functions on `String` / `List Char`; code that performs I/O
(the HTTP post, the secret-store fetch, the wall clock, environment
variables) is given the outcome of that I/O as an explicit argument, and
the module-level webhook-URL cache becomes explicit state passing.
Python exceptions are modelled with `Except`.
-/

/- ### `sanitize_text` (main.py lines 164-178)

Python:
    sanitized = (
        text.replace("\r\n", "\n")
        .replace("\r", "\n")
        .replace("*", "\\*")
        .replace("_", "\\_")
        .replace(backtick, "\\" + backtick)
        .strip()
    )
    return sanitized[:max_length]
-/

/-- The backtick character (U+0060). -/
def backtickChar : Char := Char.ofNat 96

/-- ASCII whitespace stripped by Python's `str.strip()`. -/
def isPySpace (c : Char) : Bool :=
  c = ' ' || c = '\t' || c = '\n' || c = '\r' || c = '\x0b' || c = '\x0c'

/-- `text.replace("\r\n", "\n")`: left-to-right, non-overlapping. -/
def replaceCRLF : List Char → List Char
  | '\r' :: '\n' :: rest => '\n' :: replaceCRLF rest
  | c :: rest => c :: replaceCRLF rest
  | [] => []

/-- Single-character `str.replace(a, b)` is a pointwise map. -/
def replaceChar (a b : Char) (l : List Char) : List Char :=
  l.map fun c => if c = a then b else c

/-- `text.replace(t, "\\" + t)` for a single character `t`. -/
def escChar (t : Char) : List Char → List Char
  | [] => []
  | c :: rest => if c = t then '\\' :: t :: escChar t rest else c :: escChar t rest

/-- Strip leading Python whitespace. -/
def stripLeft (l : List Char) : List Char := l.dropWhile isPySpace

/-- Strip trailing Python whitespace. -/
def stripRight (l : List Char) : List Char :=
  (l.reverse.dropWhile isPySpace).reverse

/-- Python `str.strip()`. -/
def pyStrip (l : List Char) : List Char := stripRight (stripLeft l)

/-- `sanitize_text` on character lists: CRLF/CR normalisation, markdown
escaping of `*`, `_` and backtick, strip, then truncation. -/
def sanitizeList (maxLength : Nat) (l : List Char) : List Char :=
  (pyStrip (escChar backtickChar (escChar '_' (escChar '*'
      (replaceChar '\r' '\n' (replaceCRLF l)))))).take maxLength

/-- `sanitize_text(text)` with the default `max_length = 1000`. -/
def sanitize_text (s : String) : String :=
  (sanitizeList 1000 s.toList).asString

/-- The markdown characters `sanitize_text` escapes: `*`, `_`, backtick. -/
def isSpecialChar (c : Char) : Bool :=
  c = '*' || c = '_' || c = backtickChar

/-- Whether the previous character (if any) is a backslash. -/
def prevIsBackslash : Option Char → Bool
  | some c => c = '\\'
  | none => false

/-- `escapedOK prev l` holds when every special character in `l` is
immediately preceded by a backslash (`prev` being the character just
before `l`, if any). -/
def escapedOK (prev : Option Char) : List Char → Bool
  | [] => true
  | c :: rest => (!isSpecialChar c || prevIsBackslash prev) && escapedOK (some c) rest

/-- What the three escaping passes jointly emit for one input character. -/
def escEmit (c : Char) : List Char :=
  if isSpecialChar c then ['\\', c] else [c]

/-- The three escaping passes as a single character-by-character pass. -/
def escEmitAll : List Char → List Char
  | [] => []
  | c :: rest => escEmit c ++ escEmitAll rest

/- ### `extract_alarm_data` (main.py lines 181-208)

The raw SNS message is an arbitrary JSON object; `extract_alarm_data`
reads nine keys from it.  A payload is modelled by the values (if any)
at those nine keys; values are modelled by a small JSON scalar type.
`datetime.now(timezone.utc).isoformat()` and the `AWS_REGION`
environment variable are explicit arguments `now` and `awsRegion`.
`alarm.get("NewStateValue", "UNKNOWN").upper()` raises `AttributeError`
when the stored value is not a string; this is the `Except.error` case.
-/

instance {ε α : Type} [DecidableEq ε] [DecidableEq α] : DecidableEq (Except ε α) := fun x y =>
  match x, y with
  | .ok a, .ok b =>
    if h : a = b then .isTrue (by rw [h]) else .isFalse (by intro he; cases he; exact h rfl)
  | .error a, .error b =>
    if h : a = b then .isTrue (by rw [h]) else .isFalse (by intro he; cases he; exact h rfl)
  | .ok _, .error _ => .isFalse (by intro he; cases he)
  | .error _, .ok _ => .isFalse (by intro he; cases he)

/-- JSON scalar values as stored in the decoded alarm payload. -/
inductive JValue where
  | str (s : String)
  | num (n : Int)
  | bool (b : Bool)
  | null
deriving DecidableEq, Repr

/-- Python `str.upper()` (modelled on ASCII letters, as `Char.toUpper`). -/
def pyUpper (s : String) : String := (s.toList.map Char.toUpper).asString

/-- Python `str()` on a JSON scalar. -/
def pyStr : JValue → String
  | .str s => s
  | .num n => toString n
  | .bool b => if b then "True" else "False"
  | .null => "None"

/-- `sanitize_text` applied to a raw value: the Python function first
coerces non-strings with `str()` (a no-op on strings). -/
def sanitizeVal (v : JValue) : String := sanitize_text (pyStr v)

/-- The values (if present) at the nine keys `extract_alarm_data` reads. -/
structure AlarmPayload where
  AlarmName : Option JValue
  AlarmDescription : Option JValue
  NewStateReason : Option JValue
  NewStateValue : Option JValue
  AWSAccountId : Option JValue
  Namespace : Option JValue
  Threshold : Option JValue
  Region : Option JValue
  StateChangeTime : Option JValue
deriving DecidableEq, Repr

/-- The dictionary returned by `extract_alarm_data`. -/
structure AlarmData where
  account_id : String
  alarm_name : String
  alarm_name_raw : String
  alarm_desc : String
  alarm_reason : String
  alarm_time : String
  alarm_state : String
  namespace_ : String
  threshold : String
  region : String
deriving DecidableEq, Repr

/-- `extract_alarm_data(alarm)`.  `awsRegion` is the `AWS_REGION`
environment variable and `now` is `datetime.now(timezone.utc).isoformat()`
at the moment of the call.  The only raising operation is `.upper()` on a
non-string `NewStateValue` value. -/
def extract_alarm_data (awsRegion now : String) (alarm : AlarmPayload) :
    Except String AlarmData :=
  let raw_alarm_name := pyStr (alarm.AlarmName.getD (.str "Unknown"))
  let alarm_time :=
    match alarm.StateChangeTime with
    | some (.str s) => if s = "" then now else s
    | _ => now
  match alarm.NewStateValue.getD (.str "UNKNOWN") with
  | .str stateRaw =>
    .ok
      { account_id := pyStr (alarm.AWSAccountId.getD (.str "000000000000"))
        alarm_name := sanitize_text raw_alarm_name
        alarm_name_raw := raw_alarm_name
        alarm_desc := sanitizeVal (alarm.AlarmDescription.getD (.str "No description provided"))
        alarm_reason := sanitizeVal (alarm.NewStateReason.getD (.str "No reason provided"))
        alarm_time := alarm_time
        alarm_state := pyUpper stateRaw
        namespace_ := sanitizeVal (alarm.Namespace.getD (.str "N/A"))
        threshold := pyStr (alarm.Threshold.getD (.str "N/A"))
        region := pyStr (alarm.Region.getD (.str (if awsRegion = "" then "unknown" else awsRegion))) }
  | _ => .error "AttributeError: value of NewStateValue has no attribute upper"

/-- The payload with all nine recognized keys absent. -/
def emptyAlarmPayload : AlarmPayload :=
  ⟨none, none, none, none, none, none, none, none, none⟩

/- ### `send_to_teams` (main.py lines 321-362)

The outcome of `session.post(...)` is supplied as an explicit argument:
either an HTTP response (status code and body text), a
`requests.exceptions.Timeout`, another `requests.exceptions.RequestException`,
or any other exception.  The Python function catches all of these, so the
embedding is a total function returning the `(success, message, code)` triple. -/

/-- Possible outcomes of the HTTP POST inside `send_to_teams`. -/
inductive PostOutcome where
  | response (status : Nat) (text : String)
  | timeout
  | requestError (msg : String)
  | otherError (msg : String)
deriving DecidableEq, Repr

/-- `send_to_teams` result handling, given the outcome of the POST. -/
def send_to_teams (outcome : PostOutcome) : Bool × String × Nat :=
  match outcome with
  | .response status text =>
    if 400 ≤ status then
      (false, "Teams webhook returned " ++ toString status ++ ": " ++ text.take 200, status)
    else
      (true, "Success", status)
  | .timeout => (false, "Timeout sending webhook to Teams", 408)
  | .requestError msg => (false, "Request error sending to Teams: " ++ msg, 500)
  | .otherError msg => (false, "Unexpected error sending to Teams: " ++ msg, 500)

/- ### `_is_valid_webhook_url` and `get_webhook_url` (main.py lines 83-89, 112-147)

`urlparse` is modelled for the two components the validator inspects:
the (lower-cased) scheme, and the network location that follows `"//"`.
The secret store's answer and the module-level `_webhook_url_cache` are
explicit arguments; the call returns its result together with the new
cache contents. -/

/-- Characters allowed after the first character of a URL scheme. -/
def isSchemeChar (c : Char) : Bool :=
  c.isAlphanum || c = '+' || c = '-' || c = '.'

/-- `_is_valid_webhook_url(candidate)`: `urlparse(candidate).scheme == "https"`
and a non-empty `netloc`.  A scheme exists only when a colon is preceded by
a non-empty run of scheme characters starting with a letter; the netloc is
what follows `"//"` up to the first `/`, `?` or `#`. -/
def is_valid_webhook_url (s : String) : Bool :=
  let l := s.toList
  let pre := l.takeWhile (fun c => !(c = ':'))
  let hasScheme := decide (pre.length < l.length) && !pre.isEmpty &&
    pre.all isSchemeChar &&
    (match pre.head? with | some c => c.isAlpha | none => false)
  if hasScheme then
    let scheme := pre.map Char.toLower
    let rest := l.drop (pre.length + 1)
    let netloc :=
      if rest.take 2 == ['/', '/'] then
        (rest.drop 2).takeWhile (fun c => !(c = '/' || c = '?' || c = '#'))
      else []
    scheme == "https".toList && !netloc.isEmpty
  else false

/-- The secret-store value: a JSON object (only the three keys the code
reads are relevant) or a plain string. -/
inductive SecretValue where
  | dict (webhook_url url value : Option String)
  | str (s : String)
deriving DecidableEq, Repr

/-- Python `a or b` on optional strings: `a` unless it is falsy
(absent or empty). -/
def orTruthy (a b : Option String) : Option String :=
  match a with
  | some s => if s = "" then b else some s
  | none => b

/-- The webhook URL extracted from the secret value (lines 129-136);
`""` stands for a falsy result (`None` or empty). -/
def webhookFromSecret (sv : SecretValue) : String :=
  match sv with
  | .dict w u v' => (orTruthy (orTruthy w u) v').getD ""
  | .str s => if s = "" then "" else (pyStrip s.toList).asString

/-- The exceptions `get_webhook_url` can raise. -/
inductive GetUrlError where
  | config (msg : String)
  | processing (msg : String)
deriving DecidableEq, Repr

/-- `get_webhook_url(force_refresh)`.  `secretName` is
`WEBHOOK_URL_SECRET_NAME`, `fetch` the outcome of
`secrets_provider.get(...)` (`Except.error` when it raised), `cache` the
module-level `_webhook_url_cache`.  Returns the Python result (value or
exception) paired with the cache contents after the call. -/
def get_webhook_url (secretName : String) (fetch : Except String SecretValue)
    (forceRefresh : Bool) (cache : Option String) :
    Except GetUrlError String × Option String :=
  if secretName = "" then
    (.error (.config "WEBHOOK_URL_SECRET_NAME variable is required"), cache)
  else if forceRefresh = false ∧ cache.getD "" ≠ "" then
    (.ok (cache.getD ""), cache)
  else
    match fetch with
    | .error _ =>
      (.error (.processing ("Unexpected error retrieving secret '" ++ secretName ++ "' for webhook")), cache)
    | .ok sv =>
      let webhook_url := webhookFromSecret sv
      if webhook_url = "" then
        (.error (.config ("Secret '" ++ secretName ++ "' does not contain a webhook URL")), cache)
      else if is_valid_webhook_url webhook_url = false then
        (.error (.config "Webhook URL must be an https URL with a hostname"), cache)
      else
        (.ok webhook_url, some webhook_url)

/-- One call to `get_webhook_url`: the flag it is given and the environment
it observes (secret name, secret-store outcome). -/
structure CallInput where
  forceRefresh : Bool
  secretName : String
  fetch : Except String SecretValue
deriving Repr

/-- The cache contents after a sequence of `get_webhook_url` calls. -/
def runCalls (calls : List CallInput) (cache : Option String) : Option String :=
  calls.foldl (fun c ci => (get_webhook_url ci.secretName ci.fetch ci.forceRefresh c).2) cache

/- ### `lambda_handler` (main.py lines 435-507)

What `process_sns_record` does for one record involves parsing, the
secret store and the HTTP post; the handler's aggregation logic (the
subject of the claims) only sees its outcome, so each record is
represented by that outcome: the returned success entry, a raised
`AlarmProcessingError` (message and status code), or any other
exception.  `validate_environment()` is likewise summarised by its
`(ok, message)` result, passed in as `envValid` / `envError`.
The JSON response body is modelled structurally: an `Option` field is
`none` exactly when the corresponding key is absent from the dict the
code serialises. -/

/-- Entry appended to `successes` for a processed record. -/
structure SuccessEntry where
  alarm_name : String
  alarm_state : String
  status_code : Nat
  message_id : String
deriving DecidableEq, Repr

/-- Entry appended to `failures` for a failed record. -/
structure FailureEntry where
  message : String
  detail : Option String
  status_code : Nat
  message_id : String
deriving DecidableEq, Repr

/-- The dict the handler serialises into the response body; `none` means
the key is absent. -/
structure ResponseBody where
  error : Option String
  message : Option String
  successes : Option (List SuccessEntry)
  failures : Option (List FailureEntry)
deriving DecidableEq, Repr

/-- The handler's return value. -/
structure HandlerResponse where
  statusCode : Nat
  body : ResponseBody
deriving DecidableEq, Repr

/-- The outcome of `process_sns_record` on one record: its result dict, a
raised `AlarmProcessingError`, or any other exception (the
`message_id` is the one recovered by `_safe_message_id`). -/
inductive RecordOutcome where
  | ok (entry : SuccessEntry)
  | procError (message : String) (status : Nat) (messageId : String)
  | unexpected (detail : String) (messageId : String)
deriving DecidableEq, Repr

/-- The failure entry built for a failing record (lines 466-486). -/
def toFailureEntry : RecordOutcome → Option FailureEntry
  | .ok _ => none
  | .procError msg status mid => some ⟨msg, none, status, mid⟩
  | .unexpected detail mid =>
    some ⟨"Unexpected error processing SNS record", some detail, 500, mid⟩

/-- The success entry appended for a successful record (line 458). -/
def toSuccessEntry : RecordOutcome → Option SuccessEntry
  | .ok e => some e
  | _ => none

/-- The `failures` list accumulated by the loop. -/
def failuresOf (records : List RecordOutcome) : List FailureEntry :=
  records.filterMap toFailureEntry

/-- The `successes` list accumulated by the loop. -/
def successesOf (records : List RecordOutcome) : List SuccessEntry :=
  records.filterMap toSuccessEntry

/-- `max(failure["status_code"] for failure in failures)` (line 489);
only evaluated on a non-empty list, where the fold equals the maximum. -/
def maxStatus (failures : List FailureEntry) : Nat :=
  (failures.map FailureEntry.status_code).foldl Nat.max 0

/-- `lambda_handler`: environment check, empty-batch check, per-record
loop, aggregation (lines 439-507). -/
def lambda_handler (envValid : Bool) (envError : String)
    (records : List RecordOutcome) : HandlerResponse :=
  if envValid = false then
    ⟨500, { error := some envError, message := none, successes := none, failures := none }⟩
  else if records.isEmpty then
    ⟨400, { error := some "SNS event did not contain any records",
            message := none, successes := none, failures := none }⟩
  else
    let failures := failuresOf records
    let successes := successesOf records
    if failures.isEmpty then
      ⟨200, { error := none
              message := some ("Processed " ++ toString successes.length ++ " alarm notification(s)")
              successes := some successes
              failures := none }⟩
    else
      ⟨maxStatus failures,
        { error := some "One or more notifications failed"
          message := none
          successes := if successes.isEmpty then none else some successes
          failures := some failures }⟩

/- ### Helper lemmas on `List.foldl Nat.max` -/

lemma le_foldl_max (l : List Nat) (a : Nat) : a ≤ l.foldl Nat.max a := by
  induction l generalizing a with
  | nil => exact Nat.le_refl a
  | cons x xs ih => exact Nat.le_trans (Nat.le_max_left a x) (ih (Nat.max a x))

lemma mem_le_foldl_max (l : List Nat) (a : Nat) : ∀ x ∈ l, x ≤ l.foldl Nat.max a := by
  induction l generalizing a with
  | nil => intro x hx; cases hx
  | cons y ys ih =>
    intro x hx
    rcases List.mem_cons.mp hx with rfl | hx
    · exact Nat.le_trans (Nat.le_max_right a x) (le_foldl_max ys (Nat.max a x))
    · exact ih (Nat.max a y) x hx

lemma foldl_max_mem (l : List Nat) (a : Nat) :
    l.foldl Nat.max a = a ∨ l.foldl Nat.max a ∈ l := by
  induction l generalizing a with
  | nil => exact Or.inl rfl
  | cons x xs ih =>
    rcases ih (Nat.max a x) with h | h
    · have hchoice : Nat.max a x = a ∨ Nat.max a x = x := by
        rcases Nat.le_total a x with hax | hax
        · exact Or.inr (Nat.max_eq_right hax)
        · exact Or.inl (Nat.max_eq_left hax)
      rcases hchoice with hm | hm
      · exact Or.inl (by simpa [hm] using h)
      · exact Or.inr (List.mem_cons.mpr (Or.inl (by simpa [hm] using h)))
    · exact Or.inr (List.mem_cons.mpr (Or.inr h))

/-- On a non-empty list of status codes the fold from 0 is a member. -/
lemma maxStatus_mem (f : FailureEntry) (fs : List FailureEntry) :
    maxStatus (f :: fs) ∈ (f :: fs).map FailureEntry.status_code := by
  unfold maxStatus
  rcases foldl_max_mem ((f :: fs).map FailureEntry.status_code) 0 with h | h
  · have hmem : f.status_code ∈ (f :: fs).map FailureEntry.status_code :=
      List.mem_map.mpr ⟨f, List.mem_cons_self f fs, rfl⟩
    have hle := mem_le_foldl_max ((f :: fs).map FailureEntry.status_code) 0 _ hmem
    rw [h] at hle ⊢
    have : f.status_code = 0 := Nat.le_zero.mp hle
    rw [← this]
    exact hmem
  · exact h

/-- Every failure's status code is bounded by the fold. -/
lemma maxStatus_ge (fs : List FailureEntry) :
    ∀ f ∈ fs, f.status_code ≤ maxStatus fs := by
  intro f hf
  exact mem_le_foldl_max (fs.map FailureEntry.status_code) 0 f.status_code
    (List.mem_map.mpr ⟨f, hf, rfl⟩)

/- ### Claim theorems: batch orchestrator -/

/-- C8: for the empty batch the handler returns status 400 with an error
message, before any record is processed, and the body carries no
per-record success or failure entries (given that environment validation
passed, the handler's preceding check). -/
theorem lambda_handler_empty_batch (envError : String) :
    lambda_handler true envError [] =
      ⟨400, { error := some "SNS event did not contain any records",
              message := none, successes := none, failures := none }⟩ := rfl

/-- C1: for a non-empty batch (with valid environment) the overall status
code is 200 when no record failed, and otherwise is the maximum of the
status codes carried by the failure entries (it is one of them and bounds
them all). -/
theorem lambda_handler_aggregate_status (envError : String)
    (records : List RecordOutcome) (hne : records ≠ []) :
    (failuresOf records = [] →
      (lambda_handler true envError records).statusCode = 200) ∧
    (failuresOf records ≠ [] →
      (lambda_handler true envError records).statusCode
          ∈ (failuresOf records).map FailureEntry.status_code ∧
      ∀ f ∈ failuresOf records,
        f.status_code ≤ (lambda_handler true envError records).statusCode) := by
  have hie : records.isEmpty = false := by
    cases records with
    | nil => exact absurd rfl hne
    | cons r rs => rfl
  constructor
  · intro hfe
    simp [lambda_handler, hie, hfe]
  · intro hf
    have hsc : (lambda_handler true envError records).statusCode =
        maxStatus (failuresOf records) := by
      have hfie : (failuresOf records).isEmpty = false := by
        cases h : failuresOf records with
        | nil => exact absurd h hf
        | cons a l => rfl
      simp [lambda_handler, hie, hfie]
    rw [hsc]
    cases h : failuresOf records with
    | nil => exact absurd h hf
    | cons f fs =>
      exact ⟨maxStatus_mem f fs, maxStatus_ge (f :: fs)⟩

/-- C1 witness: the spec's two-record example — one record delivered with
HTTP 200, the other's delivery raised with HTTP 500 — yields overall
status 500, one success entry and one failure entry with status 500. -/
theorem lambda_handler_aggregate_status_witness :
    (lambda_handler true ""
        [.ok ⟨"HighCPU", "ALARM", 200, "msg-1"⟩,
         .procError "Teams webhook returned 500: boom" 500 "msg-2"]).statusCode
      ∈ (failuresOf
          [.ok ⟨"HighCPU", "ALARM", 200, "msg-1"⟩,
           .procError "Teams webhook returned 500: boom" 500 "msg-2"]).map
          FailureEntry.status_code ∧
    (lambda_handler true ""
        [.ok ⟨"HighCPU", "ALARM", 200, "msg-1"⟩,
         .procError "Teams webhook returned 500: boom" 500 "msg-2"]).statusCode = 500 ∧
    (lambda_handler true ""
        [.ok ⟨"HighCPU", "ALARM", 200, "msg-1"⟩,
         .procError "Teams webhook returned 500: boom" 500 "msg-2"]).body.successes =
      some [⟨"HighCPU", "ALARM", 200, "msg-1"⟩] ∧
    (lambda_handler true ""
        [.ok ⟨"HighCPU", "ALARM", 200, "msg-1"⟩,
         .procError "Teams webhook returned 500: boom" 500 "msg-2"]).body.failures =
      some [⟨"Teams webhook returned 500: boom", none, 500, "msg-2"⟩] := by
  refine ⟨((lambda_handler_aggregate_status ""
      [.ok ⟨"HighCPU", "ALARM", 200, "msg-1"⟩,
       .procError "Teams webhook returned 500: boom" 500 "msg-2"]
      (by decide)).2 (by decide)).1, by decide, by decide, by decide⟩

/-- C7 counterexample: a non-empty batch in which every record failed.
The claim asserts the body then still includes the (empty) successes
list, but the code guards it with `if successes:` (line 494), so the
`successes` key is absent. -/
theorem lambda_handler_all_failed_omits_successes :
    ([RecordOutcome.procError "boom" 500 "m1"] ≠ []) ∧
    (lambda_handler true "" [.procError "boom" 500 "m1"]).body.successes = none :=
  ⟨by decide, rfl⟩

/-- C7 (amended): for a non-empty batch (with valid environment), the
body includes the failures list exactly when at least one record failed,
and includes the successes list exactly when there were no failures or at
least one record succeeded — so when every record fails the successes
list is omitted rather than included empty. -/
theorem lambda_handler_body_lists (envError : String)
    (records : List RecordOutcome) (hne : records ≠ []) :
    ((lambda_handler true envError records).body.failures.isSome ↔
      failuresOf records ≠ []) ∧
    ((lambda_handler true envError records).body.successes.isSome ↔
      (failuresOf records = [] ∨ successesOf records ≠ [])) := by
  have hie : records.isEmpty = false := by
    cases records with
    | nil => exact absurd rfl hne
    | cons r rs => rfl
  by_cases hf : failuresOf records = []
  · simp [lambda_handler, hie, hf]
  · have hfie : (failuresOf records).isEmpty = false := by
      cases h : failuresOf records with
      | nil => exact absurd h hf
      | cons a l => rfl
    by_cases hs : successesOf records = []
    · simp [lambda_handler, hie, hfie, hf, hs]
    · have hsie : (successesOf records).isEmpty = false := by
        cases h : successesOf records with
        | nil => exact absurd h hs
        | cons a l => rfl
      simp [lambda_handler, hie, hfie, hf, hs, hsie]

/-- C7 witness: a batch with one success and one failure — the body
includes both lists. -/
theorem lambda_handler_body_lists_witness :
    (lambda_handler true ""
        [.ok ⟨"HighCPU", "ALARM", 200, "m1"⟩,
         .procError "boom" 500 "m2"]).body.failures.isSome = true ∧
    (lambda_handler true ""
        [.ok ⟨"HighCPU", "ALARM", 200, "m1"⟩,
         .procError "boom" 500 "m2"]).body.successes.isSome = true := by
  have h := lambda_handler_body_lists ""
    [.ok ⟨"HighCPU", "ALARM", 200, "m1"⟩, .procError "boom" 500 "m2"] (by decide)
  exact ⟨by rw [h.1]; decide, by rw [h.2]; right; decide⟩

/- ### Claim theorems: delivery client -/

/-- C2: `send_to_teams` is total on every delivery outcome (the Python
function catches its exceptions): an HTTP response with status ≥ 400
yields `(False, message, status)` where the message embeds the first 200
characters of the response body; a timeout yields `(False, _, 408)`; any
other transport exception yields `(False, _, 500)`; a response with
status < 400 yields `(True, "Success", status)`. -/
theorem send_to_teams_spec (status : Nat) (text msg : String) :
    (400 ≤ status →
      send_to_teams (.response status text) =
        (false, "Teams webhook returned " ++ toString status ++ ": " ++ text.take 200,
          status)) ∧
    (status < 400 →
      send_to_teams (.response status text) = (true, "Success", status)) ∧
    send_to_teams .timeout = (false, "Timeout sending webhook to Teams", 408) ∧
    send_to_teams (.requestError msg) =
      (false, "Request error sending to Teams: " ++ msg, 500) ∧
    send_to_teams (.otherError msg) =
      (false, "Unexpected error sending to Teams: " ++ msg, 500) := by
  refine ⟨?_, ?_, rfl, rfl, rfl⟩
  · intro h
    simp [send_to_teams, h]
  · intro h
    simp [send_to_teams, Nat.not_le.mpr h]

set_option maxRecDepth 8000 in
/-- C2 witness: concrete outcomes, including truncation of a response
body longer than 200 characters. -/
theorem send_to_teams_spec_witness :
    send_to_teams (.response 500 (String.mk (List.replicate 300 'x'))) =
      (false, "Teams webhook returned 500: " ++ String.mk (List.replicate 200 'x'), 500) ∧
    send_to_teams (.response 202 "accepted") = (true, "Success", 202) ∧
    send_to_teams .timeout = (false, "Timeout sending webhook to Teams", 408) := by
  have h := send_to_teams_spec 500 (String.mk (List.replicate 300 'x')) ""
  have h2 := send_to_teams_spec 202 "accepted" ""
  exact ⟨(h.1 (by decide)).trans (by decide), h2.2.1 (by decide), h2.2.2.1⟩

/- ### Claim theorems: alarm normalizer -/

/-- C6 counterexample: on a payload without `StateChangeTime` the result
depends on the wall clock (`datetime.now` at line 191), so two
evaluations of `extract_alarm_data` on the identical payload can differ
in `alarm_time` — the function is not a pure mapping of its input. -/
theorem extract_alarm_data_clock_dependent :
    extract_alarm_data "eu-west-1" "2023-01-01T00:00:00+00:00" emptyAlarmPayload ≠
      extract_alarm_data "eu-west-1" "2024-01-01T00:00:00+00:00" emptyAlarmPayload := by
  decide

/-- C6 (amended): `extract_alarm_data` is a deterministic mapping of the
payload together with the clock reading; its output is independent of
the clock whenever `StateChangeTime` is present as a non-empty string
(only then is `datetime.now` not consulted). -/
theorem extract_alarm_data_deterministic (awsRegion now₁ now₂ : String)
    (alarm : AlarmPayload) (s : String)
    (hst : alarm.StateChangeTime = some (.str s)) (hs : s ≠ "") :
    extract_alarm_data awsRegion now₁ alarm = extract_alarm_data awsRegion now₂ alarm := by
  unfold extract_alarm_data
  rw [hst]
  simp only [if_neg hs]

/-- C6 witness: a concrete payload carrying a `StateChangeTime` string —
the result is the same under two different clock readings. -/
theorem extract_alarm_data_deterministic_witness :
    extract_alarm_data "eu-west-1" "2023-01-01T00:00:00+00:00"
        { emptyAlarmPayload with StateChangeTime := some (.str "2022-06-01T12:00:00+00:00") } =
      extract_alarm_data "eu-west-1" "2024-01-01T00:00:00+00:00"
        { emptyAlarmPayload with StateChangeTime := some (.str "2022-06-01T12:00:00+00:00") } :=
  extract_alarm_data_deterministic "eu-west-1" "2023-01-01T00:00:00+00:00"
    "2024-01-01T00:00:00+00:00"
    { emptyAlarmPayload with StateChangeTime := some (.str "2022-06-01T12:00:00+00:00") }
    "2022-06-01T12:00:00+00:00" rfl (by decide)

/-- C3 counterexample: a payload in which eight of the nine recognized
fields are absent but `NewStateValue` holds the number 5.  The code calls
`.upper()` on it (line 204) and raises `AttributeError`, so
`extract_alarm_data` does not succeed on every payload missing a subset
of recognized fields. -/
theorem extract_alarm_data_raises_on_nonstring_state :
    extract_alarm_data "eu-west-1" "2023-01-01T00:00:00+00:00"
        { emptyAlarmPayload with NewStateValue := some (.num 5) } =
      .error "AttributeError: value of NewStateValue has no attribute upper" := rfl

/-- C3 (amended): on every payload whose `NewStateValue`, when present,
is a string (in particular whenever it is absent), `extract_alarm_data`
succeeds, and every absent recognized field is filled with its documented
fallback, which is never the empty string (the fallback for a missing
`StateChangeTime` being the current-time argument `now`). -/
theorem extract_alarm_data_defaults (awsRegion now : String) (alarm : AlarmPayload)
    (hnow : now ≠ "")
    (hstate : ∀ v, alarm.NewStateValue = some v → ∃ s, v = JValue.str s) :
    ∃ d, extract_alarm_data awsRegion now alarm = .ok d ∧
      (alarm.AlarmName = none → d.alarm_name = "Unknown" ∧ d.alarm_name ≠ "") ∧
      (alarm.AlarmDescription = none →
        d.alarm_desc = "No description provided" ∧ d.alarm_desc ≠ "") ∧
      (alarm.NewStateReason = none →
        d.alarm_reason = "No reason provided" ∧ d.alarm_reason ≠ "") ∧
      (alarm.NewStateValue = none → d.alarm_state = "UNKNOWN" ∧ d.alarm_state ≠ "") ∧
      (alarm.AWSAccountId = none → d.account_id = "000000000000" ∧ d.account_id ≠ "") ∧
      (alarm.Namespace = none → d.namespace_ = "N/A" ∧ d.namespace_ ≠ "") ∧
      (alarm.Threshold = none → d.threshold = "N/A" ∧ d.threshold ≠ "") ∧
      (alarm.Region = none →
        d.region = (if awsRegion = "" then "unknown" else awsRegion) ∧ d.region ≠ "") ∧
      (alarm.StateChangeTime = none → d.alarm_time = now ∧ d.alarm_time ≠ "") := by
  have hregion : (if awsRegion = "" then "unknown" else awsRegion) ≠ "" := by
    split_ifs with hr
    · decide
    · exact hr
  cases hnsv : alarm.NewStateValue with
  | none =>
    refine ⟨_, by unfold extract_alarm_data; rw [hnsv]; rfl, ?_, ?_, ?_, ?_, ?_, ?_, ?_, ?_, ?_⟩
    all_goals intro h
    · rw [h]; exact ⟨of_decide_eq_true rfl, of_decide_eq_true rfl⟩
    · rw [h]; exact ⟨of_decide_eq_true rfl, of_decide_eq_true rfl⟩
    · rw [h]; exact ⟨of_decide_eq_true rfl, of_decide_eq_true rfl⟩
    · exact ⟨of_decide_eq_true rfl, of_decide_eq_true rfl⟩
    · rw [h]; exact ⟨of_decide_eq_true rfl, of_decide_eq_true rfl⟩
    · rw [h]; exact ⟨of_decide_eq_true rfl, of_decide_eq_true rfl⟩
    · rw [h]; exact ⟨of_decide_eq_true rfl, of_decide_eq_true rfl⟩
    · rw [h]; exact ⟨rfl, hregion⟩
    · rw [h]; exact ⟨rfl, hnow⟩
  | some v =>
    obtain ⟨s, rfl⟩ := hstate v hnsv
    refine ⟨_, by unfold extract_alarm_data; rw [hnsv]; rfl, ?_, ?_, ?_, ?_, ?_, ?_, ?_, ?_, ?_⟩
    all_goals intro h
    · rw [h]; exact ⟨of_decide_eq_true rfl, of_decide_eq_true rfl⟩
    · rw [h]; exact ⟨of_decide_eq_true rfl, of_decide_eq_true rfl⟩
    · rw [h]; exact ⟨of_decide_eq_true rfl, of_decide_eq_true rfl⟩
    · exact Option.noConfusion h
    · rw [h]; exact ⟨of_decide_eq_true rfl, of_decide_eq_true rfl⟩
    · rw [h]; exact ⟨of_decide_eq_true rfl, of_decide_eq_true rfl⟩
    · rw [h]; exact ⟨of_decide_eq_true rfl, of_decide_eq_true rfl⟩
    · rw [h]; exact ⟨rfl, hregion⟩
    · rw [h]; exact ⟨rfl, hnow⟩

/-- C3 witness: the all-absent payload — extraction succeeds and the
fields named in the claim carry their documented fallbacks. -/
theorem extract_alarm_data_defaults_witness :
    ∃ d, extract_alarm_data "eu-west-1" "2023-01-01T00:00:00+00:00" emptyAlarmPayload =
        .ok d ∧ d.alarm_name = "Unknown" ∧ d.alarm_state = "UNKNOWN" ∧
        d.alarm_time = "2023-01-01T00:00:00+00:00" := by
  obtain ⟨d, hd, h1, _, _, h4, _, _, _, _, h9⟩ :=
    extract_alarm_data_defaults "eu-west-1" "2023-01-01T00:00:00+00:00" emptyAlarmPayload
      (by decide) (fun v h => by cases h)
  exact ⟨d, hd, (h1 rfl).1, (h4 rfl).1, (h9 rfl).1⟩

/- ### Claim theorems: webhook credential resolver -/

/-- One `get_webhook_url` call preserves the cache validity invariant and
returns only validated URLs. -/
lemma get_webhook_url_step_inv (name : String) (fetch : Except String SecretValue)
    (force : Bool) (cache : Option String)
    (hc : ∀ c, cache = some c → is_valid_webhook_url c = true) :
    (∀ c, (get_webhook_url name fetch force cache).2 = some c →
      is_valid_webhook_url c = true) ∧
    (∀ r, (get_webhook_url name fetch force cache).1 = .ok r →
      is_valid_webhook_url r = true) := by
  unfold get_webhook_url
  split_ifs with h1 h2
  · exact ⟨hc, fun r hr => by cases hr⟩
  · refine ⟨hc, fun r hr => ?_⟩
    cases hcache : cache with
    | none => rw [hcache] at h2; exact absurd rfl h2.2
    | some c =>
      rw [hcache] at hr
      have : c = r := by simpa using hr
      exact this ▸ hc c hcache
  · cases fetch with
    | error e => exact ⟨hc, fun r hr => by simp at hr⟩
    | ok sv =>
      dsimp only
      by_cases hw : webhookFromSecret sv = ""
      · rw [if_pos hw]
        exact ⟨hc, fun r hr => by simp at hr⟩
      · rw [if_neg hw]
        cases hv : is_valid_webhook_url (webhookFromSecret sv) with
        | false =>
          rw [if_pos rfl]
          exact ⟨hc, fun r hr => by simp at hr⟩
        | true =>
          rw [if_neg (by simp)]
          refine ⟨fun c hcc => ?_, fun r hr => ?_⟩
          · have h' : webhookFromSecret sv = c := by simpa using hcc
            exact h' ▸ hv
          · have h' : webhookFromSecret sv = r := by simpa using hr
            exact h' ▸ hv

/-- C9: starting from an empty cache, after any sequence of
`get_webhook_url` calls the cache can only hold a string accepted by
`_is_valid_webhook_url` (an HTTPS URL with a non-empty host); moreover a
call whose cache satisfies that invariant only returns validated URLs
(invalid resolved values end in a raised `ConfigurationError` instead of
a returned value). -/
theorem get_webhook_url_validated :
    (∀ (calls : List CallInput) (u : String),
      runCalls calls none = some u → is_valid_webhook_url u = true) ∧
    (∀ (name : String) (fetch : Except String SecretValue) (force : Bool)
      (cache : Option String) (r : String),
      (∀ c, cache = some c → is_valid_webhook_url c = true) →
      (get_webhook_url name fetch force cache).1 = .ok r →
      is_valid_webhook_url r = true) := by
  have hrun : ∀ (calls : List CallInput) (cache : Option String),
      (∀ c, cache = some c → is_valid_webhook_url c = true) →
      ∀ u, runCalls calls cache = some u → is_valid_webhook_url u = true := by
    intro calls
    induction calls with
    | nil => intro cache hc u hu; exact hc u hu
    | cons ci cs ih =>
      intro cache hc u hu
      exact ih _ (get_webhook_url_step_inv ci.secretName ci.fetch ci.forceRefresh cache hc).1
        u hu
  exact ⟨fun calls u hu => hrun calls none (fun c hc => by cases hc) u hu,
    fun name fetch force cache r hc hr =>
      (get_webhook_url_step_inv name fetch force cache hc).2 r hr⟩

/-- C9 witness: one call that fetches and caches a concrete HTTPS URL;
the theorem yields its validity. -/
theorem get_webhook_url_validated_witness :
    is_valid_webhook_url "https://example.com/webhook" = true :=
  get_webhook_url_validated.1
    [⟨false, "secret-name", .ok (.str "https://example.com/webhook")⟩]
    "https://example.com/webhook" (by decide)

/-- C10: `get_webhook_url` is atomic with respect to the cache: whenever
it raises (returns `Except.error`), the cache after the call is exactly
the cache before it, and any change to the cache means the call returned
`ok u` and wrote exactly that validated URL `u`. -/
theorem get_webhook_url_atomic (name : String) (fetch : Except String SecretValue)
    (force : Bool) (cache : Option String) :
    (∀ e, (get_webhook_url name fetch force cache).1 = .error e →
      (get_webhook_url name fetch force cache).2 = cache) ∧
    ((get_webhook_url name fetch force cache).2 ≠ cache →
      ∃ u, (get_webhook_url name fetch force cache).1 = .ok u ∧
        (get_webhook_url name fetch force cache).2 = some u ∧
        is_valid_webhook_url u = true) := by
  unfold get_webhook_url
  split_ifs with h1 h2
  · exact ⟨fun e he => rfl, fun hne => absurd rfl hne⟩
  · exact ⟨fun e he => rfl, fun hne => absurd rfl hne⟩
  · cases fetch with
    | error e => exact ⟨fun e he => rfl, fun hne => absurd rfl hne⟩
    | ok sv =>
      dsimp only
      by_cases hw : webhookFromSecret sv = ""
      · rw [if_pos hw]
        exact ⟨fun e he => rfl, fun hne => absurd rfl hne⟩
      · rw [if_neg hw]
        cases hv : is_valid_webhook_url (webhookFromSecret sv) with
        | false =>
          rw [if_pos rfl]
          exact ⟨fun e he => rfl, fun hne => absurd rfl hne⟩
        | true =>
          rw [if_neg (by simp)]
          constructor
          · intro e he
            simp at he
          · intro hne
            exact ⟨webhookFromSecret sv, rfl, rfl, hv⟩

/-- C10 witness: a call that raises (missing secret name) leaves a
concrete cache untouched. -/
theorem get_webhook_url_atomic_witness :
    (get_webhook_url "" (.ok (.str "https://a/b")) false (some "https://example.com/w")).2 =
      some "https://example.com/w" :=
  (get_webhook_url_atomic "" (.ok (.str "https://a/b")) false
      (some "https://example.com/w")).1
    (.config "WEBHOOK_URL_SECRET_NAME variable is required") (by decide)

/- ### Claim theorems: sanitizer invariants -/

/-- Reduction of one escaping pass on a non-matching head. -/
lemma escChar_cons_ne (t c : Char) (h : c ≠ t) (l : List Char) :
    escChar t (c :: l) = c :: escChar t l := by
  simp only [escChar]
  rw [if_neg h]

/-- Reduction of one escaping pass on a matching head. -/
lemma escChar_cons_eq (t : Char) (l : List Char) :
    escChar t (t :: l) = '\\' :: t :: escChar t l := by
  simp [escChar]

/-- The three sequential `str.replace` escaping passes equal one
character-by-character emission pass. -/
lemma escChar_chain_eq_escEmitAll (l : List Char) :
    escChar backtickChar (escChar '_' (escChar '*' l)) = escEmitAll l := by
  induction l with
  | nil => rfl
  | cons c rest ih =>
    by_cases h1 : c = '*'
    · subst h1
      rw [escChar_cons_eq '*' rest,
        escChar_cons_ne '_' '\\' (by decide) _, escChar_cons_ne '_' '*' (by decide) _,
        escChar_cons_ne backtickChar '\\' (by decide) _,
        escChar_cons_ne backtickChar '*' (by decide) _, ih]
      rfl
    · by_cases h2 : c = '_'
      · subst h2
        rw [escChar_cons_ne '*' '_' (by decide) _, escChar_cons_eq '_' _,
          escChar_cons_ne backtickChar '\\' (by decide) _,
          escChar_cons_ne backtickChar '_' (by decide) _, ih]
        rfl
      · by_cases h3 : c = backtickChar
        · subst h3
          rw [escChar_cons_ne '*' backtickChar (by decide) _,
            escChar_cons_ne '_' backtickChar (by decide) _,
            escChar_cons_eq backtickChar _, ih]
          rfl
        · have hs : isSpecialChar c = false := by
            simp [isSpecialChar, h1, h2, h3]
          rw [escChar_cons_ne '*' c h1 _, escChar_cons_ne '_' c h2 _,
            escChar_cons_ne backtickChar c h3 _, ih]
          show c :: escEmitAll rest = escEmit c ++ escEmitAll rest
          unfold escEmit
          rw [hs]
          rfl

/-- Output of the emission pass: every special character is preceded by
the backslash just emitted for it. -/
lemma escapedOK_escEmitAll (l : List Char) :
    ∀ prev, escapedOK prev (escEmitAll l) = true := by
  induction l with
  | nil => intro prev; rfl
  | cons c rest ih =>
    intro prev
    by_cases h : isSpecialChar c = true
    · have he : escEmit c = ['\\', c] := by unfold escEmit; rw [if_pos h]
      show escapedOK prev (escEmit c ++ escEmitAll rest) = true
      rw [he]
      show escapedOK prev ('\\' :: c :: escEmitAll rest) = true
      simp only [escapedOK]
      rw [ih (some c)]
      have hb : isSpecialChar '\\' = false := by decide
      have hp : prevIsBackslash (some '\\') = true := by decide
      rw [hb, hp]
      simp
    · have hf : isSpecialChar c = false := by
        cases hcc : isSpecialChar c with
        | false => rfl
        | true => exact absurd hcc h
      have he : escEmit c = [c] := by unfold escEmit; rw [if_neg h]
      show escapedOK prev (escEmit c ++ escEmitAll rest) = true
      rw [he]
      show escapedOK prev (c :: escEmitAll rest) = true
      simp only [escapedOK]
      rw [ih (some c), hf]
      simp

/-- When the previous character is not a backslash, `escapedOK` does not
depend on it. -/
lemma escapedOK_of_prev_not_backslash (l : List Char) (p : Option Char)
    (hp : prevIsBackslash p = false) : escapedOK p l = escapedOK none l := by
  cases l with
  | nil => rfl
  | cons c rest =>
    simp only [escapedOK]
    rw [hp]
    rfl

/-- Whitespace characters are not backslashes. -/
lemma isPySpace_not_backslash (c : Char) (h : isPySpace c = true) :
    prevIsBackslash (some c) = false := by
  by_contra hb
  have hc : c = '\\' := by
    simp [prevIsBackslash] at hb
    exact hb
  subst hc
  exact absurd h (by decide)

/-- Dropping leading whitespace preserves the escaping invariant. -/
lemma escapedOK_dropWhile_space (l : List Char) (h : escapedOK none l = true) :
    escapedOK none (l.dropWhile isPySpace) = true := by
  induction l with
  | nil => exact h
  | cons c rest ih =>
    by_cases hc : isPySpace c = true
    · rw [List.dropWhile_cons_of_pos hc]
      have h' := h
      simp only [escapedOK, Bool.and_eq_true] at h'
      have htail : escapedOK (some c) rest = true := h'.2
      rw [escapedOK_of_prev_not_backslash rest (some c) (isPySpace_not_backslash c hc)]
        at htail
      exact ih htail
    · rw [List.dropWhile_cons_of_neg hc]
      exact h

/-- The escaping invariant restricts to list prefixes. -/
lemma escapedOK_append_left (a : List Char) : ∀ (b : List Char) (p : Option Char),
    escapedOK p (a ++ b) = true → escapedOK p a = true := by
  induction a with
  | nil => intro b p _; rfl
  | cons c rest ih =>
    intro b p h
    rw [List.cons_append] at h
    simp only [escapedOK, Bool.and_eq_true] at h ⊢
    exact ⟨h.1, ih b (some c) h.2⟩

/-- `stripRight` keeps a prefix of its input. -/
lemma stripRight_append (l : List Char) :
    l = stripRight l ++ (l.reverse.takeWhile isPySpace).reverse := by
  have h := List.takeWhile_append_dropWhile isPySpace l.reverse
  calc l = l.reverse.reverse := (List.reverse_reverse l).symm
    _ = (l.reverse.takeWhile isPySpace ++ l.reverse.dropWhile isPySpace).reverse := by rw [h]
    _ = (l.reverse.dropWhile isPySpace).reverse ++ (l.reverse.takeWhile isPySpace).reverse :=
      List.reverse_append _ _
    _ = stripRight l ++ (l.reverse.takeWhile isPySpace).reverse := rfl

/-- C4: the sanitized form of any string is at most 1000 characters long
and contains no raw `*`, `_` or backtick: every such character in the
output is immediately preceded by a backslash. -/
theorem sanitize_text_bounded_and_escaped (s : String) :
    (sanitize_text s).length ≤ 1000 ∧
    escapedOK none (sanitize_text s).toList = true := by
  constructor
  · show ((sanitizeList 1000 s.toList)).length ≤ 1000
    unfold sanitizeList
    rw [List.length_take]
    exact Nat.min_le_left _ _
  · show escapedOK none (sanitizeList 1000 s.toList) = true
    unfold sanitizeList
    set x := replaceChar '\r' '\n' (replaceCRLF s.toList) with hx
    have hE : escapedOK none (escChar backtickChar (escChar '_' (escChar '*' x))) = true := by
      rw [escChar_chain_eq_escEmitAll]
      exact escapedOK_escEmitAll x none
    set E := escChar backtickChar (escChar '_' (escChar '*' x)) with hEdef
    have hL : escapedOK none (stripLeft E) = true := escapedOK_dropWhile_space E hE
    have hR : escapedOK none (pyStrip E) = true := by
      have hdec := stripRight_append (stripLeft E)
      rw [hdec] at hL
      exact escapedOK_append_left _ _ none hL
    have hdec2 := List.take_append_drop 1000 (pyStrip E)
    rw [← hdec2] at hR
    exact escapedOK_append_left _ _ none hR

/- ### Claim theorems: sanitizer idempotence -/

/-- C5 counterexample: sanitizing twice is not the same as sanitizing
once — `sanitize_text "*"` is `"\*"`, and re-sanitizing escapes the `*`
again behind the existing backslash, giving `"\\*"`. -/
theorem sanitize_text_not_idempotent :
    sanitize_text (sanitize_text "*") ≠ sanitize_text "*" := by decide

/-- Reduction of the CRLF pass when the head does not begin `"\r\n"`. -/
lemma replaceCRLF_cons_of (c : Char) (rest : List Char)
    (hne : ∀ r1, c = '\r' → rest = '\n' :: r1 → False) :
    replaceCRLF (c :: rest) = c :: replaceCRLF rest := by
  rw [replaceCRLF.eq_def]
  split
  · rename_i heq
    injection heq with h1 h2
    exact (hne _ h1 h2).elim
  · rename_i heq
    injection heq with h1 h2
    subst h1
    subst h2
    rfl
  · rename_i heq
    cases heq

/-- The CRLF pass is the identity on carriage-return-free input. -/
lemma replaceCRLF_eq_self (l : List Char) (h : ∀ c ∈ l, c ≠ '\r') :
    replaceCRLF l = l := by
  induction l using replaceCRLF.induct with
  | case1 rest ih => exact absurd rfl (h '\r' (by simp))
  | case2 c rest hne ih =>
    rw [replaceCRLF_cons_of c rest hne, ih (fun d hd => h d (by simp [hd]))]
  | case3 => rfl

/-- Characters of the CRLF pass output come from the input or are `\n`. -/
lemma mem_replaceCRLF (l : List Char) (c : Char) (hc : c ∈ replaceCRLF l) :
    c ∈ l ∨ c = '\n' := by
  induction l using replaceCRLF.induct with
  | case1 rest ih =>
    rw [show replaceCRLF ('\r' :: '\n' :: rest) = '\n' :: replaceCRLF rest from rfl] at hc
    rcases List.mem_cons.mp hc with rfl | hc'
    · exact Or.inr rfl
    · rcases ih hc' with h | h
      · exact Or.inl (by simp [h])
      · exact Or.inr h
  | case2 d rest hne ih =>
    rw [replaceCRLF_cons_of d rest hne] at hc
    rcases List.mem_cons.mp hc with rfl | hc'
    · exact Or.inl (List.mem_cons_self _ _)
    · rcases ih hc' with h | h
      · exact Or.inl (List.mem_cons_of_mem _ h)
      · exact Or.inr h
  | case3 => cases hc

/-- The CRLF pass never lengthens its input. -/
lemma length_replaceCRLF_le (l : List Char) : (replaceCRLF l).length ≤ l.length := by
  induction l using replaceCRLF.induct with
  | case1 rest ih =>
    rw [show replaceCRLF ('\r' :: '\n' :: rest) = '\n' :: replaceCRLF rest from rfl]
    simp only [List.length_cons]
    omega
  | case2 c rest hne ih =>
    rw [replaceCRLF_cons_of c rest hne]
    simp only [List.length_cons]
    omega
  | case3 => exact Nat.le_refl _

/-- Characters of a single-character replacement come from the input or
are the replacement. -/
lemma mem_replaceChar (a b c : Char) (l : List Char)
    (hc : c ∈ replaceChar a b l) : c ∈ l ∨ c = b := by
  obtain ⟨x, hx, hcx⟩ := List.mem_map.mp hc
  by_cases hxa : x = a
  · right
    rw [← hcx, if_pos hxa]
  · left
    rw [← hcx, if_neg hxa]
    exact hx

/-- The `"\r" -> "\n"` replacement leaves no carriage return behind. -/
lemma replaceChar_no_cr (l : List Char) (c : Char)
    (hc : c ∈ replaceChar '\r' '\n' l) : c ≠ '\r' := by
  obtain ⟨x, hx, hcx⟩ := List.mem_map.mp hc
  by_cases hxa : x = '\r'
  · rw [← hcx, if_pos hxa]
    decide
  · rw [← hcx, if_neg hxa]
    exact hxa

/-- Single-character replacement is the identity when the target is absent. -/
lemma replaceChar_eq_self (a b : Char) (l : List Char) (h : ∀ c ∈ l, c ≠ a) :
    replaceChar a b l = l := by
  induction l with
  | nil => rfl
  | cons c rest ih =>
    simp only [replaceChar, List.map_cons]
    rw [if_neg (h c (List.mem_cons_self _ _))]
    have := ih (fun d hd => h d (List.mem_cons_of_mem _ hd))
    simp only [replaceChar] at this
    rw [this]

/-- An escaping pass is the identity when its character is absent. -/
lemma escChar_eq_self (t : Char) (l : List Char) (h : ∀ c ∈ l, c ≠ t) :
    escChar t l = l := by
  induction l with
  | nil => rfl
  | cons c rest ih =>
    rw [escChar_cons_ne t c (h c (List.mem_cons_self _ _)) rest,
      ih (fun d hd => h d (List.mem_cons_of_mem _ hd))]

/-- `dropWhile` never lengthens its input. -/
lemma length_dropWhile_le_char (p : Char → Bool) (l : List Char) :
    (l.dropWhile p).length ≤ l.length := by
  induction l with
  | nil => exact Nat.le_refl _
  | cons c rest ih =>
    by_cases hc : p c = true
    · rw [List.dropWhile_cons_of_pos hc]
      exact Nat.le_trans ih (Nat.le_succ _)
    · rw [List.dropWhile_cons_of_neg hc]

/-- Characters of the left strip come from the input. -/
lemma mem_stripLeft (l : List Char) (c : Char) (hc : c ∈ stripLeft l) : c ∈ l := by
  have h := List.takeWhile_append_dropWhile isPySpace l
  rw [← h]
  exact List.mem_append.mpr (Or.inr hc)

/-- Characters of the right strip come from the input. -/
lemma mem_stripRight (l : List Char) (c : Char) (hc : c ∈ stripRight l) : c ∈ l := by
  rw [stripRight_append l]
  exact List.mem_append.mpr (Or.inl hc)

/-- Characters of the full strip come from the input. -/
lemma mem_pyStrip (l : List Char) (c : Char) (hc : c ∈ pyStrip l) : c ∈ l :=
  mem_stripLeft l c (mem_stripRight (stripLeft l) c hc)

/-- The left strip never lengthens its input. -/
lemma length_stripLeft_le (l : List Char) : (stripLeft l).length ≤ l.length :=
  length_dropWhile_le_char isPySpace l

/-- The right strip never lengthens its input. -/
lemma length_stripRight_le (l : List Char) : (stripRight l).length ≤ l.length := by
  have h := congrArg List.length (stripRight_append l)
  rw [List.length_append] at h
  omega

/-- The full strip never lengthens its input. -/
lemma length_pyStrip_le (l : List Char) : (pyStrip l).length ≤ l.length :=
  Nat.le_trans (length_stripRight_le (stripLeft l)) (length_stripLeft_le l)

/-- A left-stripped list stays left-stripped after a right strip. -/
lemma stripLeft_stripRight (w : List Char) (hw : w.dropWhile isPySpace = w) :
    (stripRight w).dropWhile isPySpace = stripRight w := by
  rcases hpre : stripRight w with _ | ⟨c, t⟩
  · rfl
  · have hr := stripRight_append w
    rw [hpre] at hr
    have hc : isPySpace c = false := by
      by_cases hcc : isPySpace c = true
      · rw [hr, List.cons_append, List.dropWhile_cons_of_pos hcc] at hw
        have hlen := congrArg List.length hw
        have hle := length_dropWhile_le_char isPySpace
          (t ++ (w.reverse.takeWhile isPySpace).reverse)
        rw [List.length_cons] at hlen
        omega
      · cases hv : isPySpace c with
        | false => rfl
        | true => exact absurd hv hcc
    rw [List.dropWhile_cons_of_neg (by simp [hc])]

/-- Python `strip` is idempotent. -/
lemma pyStrip_idem (z : List Char) : pyStrip (pyStrip z) = pyStrip z := by
  show stripRight (stripLeft (stripRight (stripLeft z))) = stripRight (stripLeft z)
  have hsl : stripLeft (stripRight (stripLeft z)) = stripRight (stripLeft z) :=
    stripLeft_stripRight (stripLeft z) (List.dropWhile_idempotent isPySpace z)
  rw [hsl]
  show List.rdropWhile isPySpace (List.rdropWhile isPySpace (stripLeft z)) =
    List.rdropWhile isPySpace (stripLeft z)
  exact List.rdropWhile_idempotent isPySpace (stripLeft z)

/-- A character that is not special differs from each escaped character. -/
lemma not_special_parts (c : Char) (h : isSpecialChar c = false) :
    c ≠ '*' ∧ c ≠ '_' ∧ c ≠ backtickChar := by
  simp only [isSpecialChar, Bool.or_eq_false_iff, decide_eq_false_iff_not] at h
  exact ⟨h.1.1, h.1.2, h.2⟩

/-- C5 (amended): `sanitize_text` is idempotent on inputs that contain no
`*`, `_` or backtick and are at most 1000 characters long; on inputs with
markdown characters a second pass escapes the inserted backslash-pairs
again, as the counterexample shows. -/
theorem sanitize_text_idempotent_on_plain (s : String)
    (hspec : ∀ c ∈ s.toList, isSpecialChar c = false)
    (hlen : s.length ≤ 1000) :
    sanitize_text (sanitize_text s) = sanitize_text s := by
  have hlen' : s.toList.length ≤ 1000 := hlen
  set l := s.toList with hldef
  set z := replaceChar '\r' '\n' (replaceCRLF l) with hzdef
  have hz_nor : ∀ c ∈ z, c ≠ '\r' := fun c hc => replaceChar_no_cr (replaceCRLF l) c hc
  have hz_spec : ∀ c ∈ z, isSpecialChar c = false := by
    intro c hc
    rcases mem_replaceChar '\r' '\n' c (replaceCRLF l) hc with hc' | rfl
    · rcases mem_replaceCRLF l c hc' with hc'' | rfl
      · exact hspec c hc''
      · decide
    · decide
  have hz_len : z.length ≤ 1000 := by
    have h1 : z.length = (replaceCRLF l).length := List.length_map _ _
    have h2 := length_replaceCRLF_le l
    omega
  have hesc : ∀ w : List Char, (∀ c ∈ w, isSpecialChar c = false) →
      escChar backtickChar (escChar '_' (escChar '*' w)) = w := by
    intro w hw
    rw [escChar_eq_self '*' w (fun c hc => (not_special_parts c (hw c hc)).1),
      escChar_eq_self '_' w (fun c hc => (not_special_parts c (hw c hc)).2.1),
      escChar_eq_self backtickChar w (fun c hc => (not_special_parts c (hw c hc)).2.2)]
  have hfirst : sanitizeList 1000 l = pyStrip z := by
    unfold sanitizeList
    rw [← hzdef, hesc z hz_spec]
    exact List.take_of_length_le (Nat.le_trans (length_pyStrip_le z) hz_len)
  set y := pyStrip z with hydef
  have hy_nor : ∀ c ∈ y, c ≠ '\r' := fun c hc => hz_nor c (mem_pyStrip z c hc)
  have hy_spec : ∀ c ∈ y, isSpecialChar c = false :=
    fun c hc => hz_spec c (mem_pyStrip z c hc)
  have hy_len : y.length ≤ 1000 := Nat.le_trans (length_pyStrip_le z) hz_len
  have hsecond : sanitizeList 1000 y = y := by
    unfold sanitizeList
    rw [replaceCRLF_eq_self y hy_nor, replaceChar_eq_self '\r' '\n' y hy_nor,
      hesc y hy_spec, pyStrip_idem z]
    exact List.take_of_length_le hy_len
  show (sanitizeList 1000 (sanitize_text s).toList).asString = sanitize_text s
  have hst : sanitize_text s = y.asString := by
    show (sanitizeList 1000 l).asString = y.asString
    rw [hfirst]
  rw [hst]
  have htl : (y.asString).toList = y := rfl
  rw [htl, hsecond]

/-- C5 witness: a concrete markdown-free string is a fixed point of a
second sanitization. -/
theorem sanitize_text_idempotent_on_plain_witness :
    sanitize_text (sanitize_text "  Alarm resolved.  ") =
      sanitize_text "  Alarm resolved.  " :=
  sanitize_text_idempotent_on_plain "  Alarm resolved.  " (by decide) (by decide)
